import Mathlib

/-!
Verification of the warp synthetic object-data generator
(`pkg/generator/random.go`, `pkg/generator/text.go`).

Machine integers: all `int`/`int64` values reachable in the claims are
nonnegative and far below `2^63`, so they are embedded as `ℕ` (the `uint64`
name counter, which can wrap, is embedded with an explicit `% 2 ^ 64`).
Byte values are embedded as `ℕ`.

The cryptographically secure random source (`crypto/rand`) and the seeded
pseudo-random generator (`math/rand`) are external to the repository; they are
embedded as oracle parameters (`uniq : ℕ → ℕ` gives the bytes a successful
`cRand.Read` writes, `ok : Bool` says whether the read succeeds).

Functions that can panic (index out of range, modulo by zero) return
`Option`: `none` means the call does not return normally.  Loops whose Go
form is `for cond { ... }` are embedded with an explicit fuel argument that
is chosen large enough at every call site reachable without divergence;
running out of fuel while the guard still holds also yields `none`.
-/

namespace Warp

/-! ### genData (text.go lines 148-196) -/

/-- Embeds the three length computations at the head of `genData`
(text.go lines 149-173): given `reqSize`, `compRatio`, `compWindow`,
returns `(uniqueStrLen, remStrLen, repeatUniqueStrLen)`. -/
def genParams (reqSize compRatio compWindow : ℕ) : ℕ × ℕ × ℕ :=
  if 0 < compRatio ∧ reqSize ≤ compWindow then
    -- uniqueStrLen = reqSize / compRatio, remStrLen = reqSize % compRatio,
    -- repeatUniqueStrLen = uniqueStrLen * compRatio; fallback when uniqueStrLen == 0.
    if reqSize / compRatio = 0 then (1, 0, reqSize)
    else (reqSize / compRatio, reqSize % compRatio, reqSize / compRatio * compRatio)
  else if 0 < compRatio then
    -- restrict unique string to compression window (text.go lines 164-168)
    (compWindow / compRatio, compWindow % compRatio, compWindow / compRatio * compRatio)
  else
    (reqSize, 0, reqSize)

/-- Embeds the repeat loop of `genData` (text.go lines 186-188):
`for int64(len(builder)) != repeatUniqueStrLen { builder = append(builder, uniqueStr...) }`.
`none` models divergence (guard never met before the fuel bound, which at all
call sites exceeds the number of iterations of any terminating run). -/
def repeatLoop (uniqueStr : List ℕ) (target : ℕ) : ℕ → List ℕ → Option (List ℕ)
  | 0, b => if b.length = target then some b else none
  | fuel + 1, b =>
    if b.length = target then some b else repeatLoop uniqueStr target fuel (b ++ uniqueStr)

/-- Embeds the remainder loop of `genData` (text.go lines 191-193):
`for i := 0; i < remStrLen; i++ { builder = append(builder, builder[i]) }`.
`builder[i]` on an out-of-range index panics, modeled as `none`. -/
def fillLoop : List ℕ → ℕ → ℕ → Option (List ℕ)
  | b, _, 0 => some b
  | b, i, n + 1 =>
    match b.get? i with
    | some x => fillLoop (b ++ [x]) (i + 1) n
    | none => none

/-- Body of `genData` after a successful `cRand.Read` (text.go lines 183-195). -/
def genDataOk (uniqueStr : List ℕ) (repeatLen remLen : ℕ) : Option (List ℕ) :=
  match repeatLoop uniqueStr repeatLen (repeatLen + 1) [] with
  | none => none
  | some b => fillLoop b 0 remLen

/-- Embeds `genData` (text.go lines 148-196).  `ok` is whether the
`cRand.Read` into `uniqueStr` succeeds; on failure Go logs and returns `nil`
(the empty slice).  `uniq i` is byte `i` written by a successful read. -/
def genData (ok : Bool) (uniq : ℕ → ℕ) (reqSize compRatio compWindow : ℕ) :
    Option (List ℕ) :=
  if ok then
    genDataOk ((List.range (genParams reqSize compRatio compWindow).1).map uniq)
      (genParams reqSize compRatio compWindow).2.2
      (genParams reqSize compRatio compWindow).2.1
  else some []

/-! ### textSrc.Object (text.go lines 124-145) -/

/-- Embeds the accumulation loop of `textSrc.Object` (text.go lines 130-134):
`for int64(len(builder)) < t.obj.Size { reqSize := ...; builder = append(builder, genData(...)...) }`.
`oks k` / `uniqs k` are the secure-random oracle of the `k`-th iteration.
`none` models a panic inside `genData` or divergence past the fuel bound. -/
def buildLoop (oks : ℕ → Bool) (uniqs : ℕ → ℕ → ℕ) (size compRatio compWindow : ℕ) :
    ℕ → ℕ → List ℕ → Option (List ℕ)
  | 0, _, b => if b.length < size then none else some b
  | fuel + 1, k, b =>
    if b.length < size then
      match genData (oks k) (uniqs k) (size - b.length) compRatio compWindow with
      | none => none
      | some chunk => buildLoop oks uniqs size compRatio compWindow fuel (k + 1) (b ++ chunk)
    else some b

/-- The loop of `textSrc.Object` returns for some fuel bound.  Since the only
`none` results of `buildLoop` with chunks that never panic come from fuel
exhaustion, this is termination of the Go loop. -/
def BuildTerminates (oks : ℕ → Bool) (uniqs : ℕ → ℕ → ℕ)
    (size compRatio compWindow : ℕ) : Prop :=
  ∃ fuel, buildLoop oks uniqs size compRatio compWindow fuel 0 [] ≠ none

/-- Mutable state of a `textSrc` instance: the circular buffer contents and the
`uint64` name counter (text.go lines 79-85). -/
structure TextState where
  bufData : List ℕ
  counter : ℕ
deriving DecidableEq

/-- Embeds one `textSrc.Object` call (text.go lines 124-145) for a drawn object
size `drawnSize`: increments the counter (`atomic.AddUint64`), rebuilds the
payload, stores it into `t.buf.data`, and returns the new state together with
the counter value used in the object name.  Fuel `drawnSize + 1` suffices for
every terminating run because every non-final iteration appends at least one
byte. -/
def textObject (oks : ℕ → Bool) (uniqs : ℕ → ℕ → ℕ)
    (compRatio compWindow drawnSize : ℕ) (st : TextState) :
    Option (TextState × ℕ) :=
  match buildLoop oks uniqs drawnSize compRatio compWindow (drawnSize + 1) 0 [] with
  | none => none
  | some builder =>
      some (⟨builder, (st.counter + 1) % 2 ^ 64⟩, (st.counter + 1) % 2 ^ 64)

/-! ### plainSrc.Object (random.go lines 161-206) -/

/-- Embeds the repetition loop of `plainSrc.Object` (random.go lines 178-182):
`splitLength := len(dst)/4; for i := splitLength; i < len(dst); i++ { dst[i] = dst[i%splitLength] }`.
When `splitLength = 0` and the loop body runs, `i % 0` is a Go run-time panic
(integer divide by zero), modeled as `none`.  The in-place writes only touch
indices `≥ split`, while the reads only touch indices `< split`, so the reads
always see the original prefix. -/
def scrambleLoop (split : ℕ) : ℕ → List ℕ → ℕ → Option (List ℕ)
  | 0, dst, i => if i < dst.length then none else some dst
  | fuel + 1, dst, i =>
    if i < dst.length then
      if split = 0 then none
      else
        match dst.get? (i % split) with
        | some v => scrambleLoop split fuel (dst.set i v) (i + 1)
        | none => none
    else some dst

/-- Embeds the payload construction of `plainSrc.Object` (random.go lines
169-182): `build` is filled by `cRand.Read` (zero-filled when the read fails,
since the error is only printed and execution continues), then the repetition
loop rewrites everything past the first quarter. -/
def plainObjectData (ok : Bool) (uniq : ℕ → ℕ) (size : ℕ) : Option (List ℕ) :=
  scrambleLoop (size / 4) size
    (if ok then (List.range size).map uniq else List.replicate size 0) (size / 4)

/-- Modelled from the spec: the circular buffer (`newCircularBuffer` /
`circularBuffer.Reset`, not under `src/`).  Spec 4.1: `reset(requestedLength)`
returns a stream such that reading it end-to-end yields exactly
`requestedLength` bytes, with content equal to the buffer repeated and
truncated; `requestedLength` must be ≥ 0. -/
def circularRead (data : List ℕ) (requested : ℕ) : List ℕ :=
  (List.range requested).map (fun i => data.getD (i % data.length) 0)

/-- Observable result of one `plainSrc.Object` call (random.go lines 161-206):
the `Object.Size` field, the bytes stored into `c.buf.data`, and the bytes the
returned reader yields.  The reader is `c.buf.Reset(0)` (random.go line 201),
so it is the circular buffer reset to requested length 0.  `drawnSize` is the
value of `c.o.getSize(c.rng)` (spec 4.3: fixed `totalSize`, or uniformly
randomized up to it). -/
structure PlainCall where
  size : ℕ
  payload : Option (List ℕ)
  streamed : Option (List ℕ)

/-- Embeds one `plainSrc.Object` call. -/
def plainSrcObject (ok : Bool) (uniq : ℕ → ℕ) (drawnSize : ℕ) : PlainCall :=
  { size := drawnSize
    payload := plainObjectData ok uniq drawnSize
    streamed := (plainObjectData ok uniq drawnSize).map (fun d => circularRead d 0) }

/-! ### Object names -/

/-- Embeds the name built by `plainSrc.Object` (random.go lines 202-204):
`string(nBuf[:]) + ".txt"` where `nBuf` is the 16-byte output of
`randASCIIBytes` (repository code not under `src/`; modelled from the spec as
an abstract "short random alphanumeric suffix"). -/
def plainName (suffix : String) : String := suffix ++ ".txt"

/-- Embeds the name built by `textSrc.Object` (text.go line 140):
`fmt.Sprintf("%d.%s.txt", counter, suffix)`. -/
def textName (counter : ℕ) (suffix : String) : String :=
  toString counter ++ "." ++ suffix ++ ".txt"

/-- Name of the `k`-th sequential `plainSrc.Object` call (0-based), given the
stream of suffixes drawn from the instance rng. -/
def plainNameSeq (suffixes : ℕ → String) (k : ℕ) : String := plainName (suffixes k)

/-- Counter value used in the name of the `k`-th sequential `textSrc.Object`
call (0-based) on a fresh instance: `atomic.AddUint64` starting from 0, a
`uint64` that wraps at `2 ^ 64`. -/
def textCounterAt (k : ℕ) : ℕ := (k + 1) % 2 ^ 64

/-- Name of the `k`-th sequential `textSrc.Object` call on a fresh instance. -/
def textNameSeq (suffixes : ℕ → String) (k : ℕ) : String :=
  textName (textCounterAt k) (suffixes k)

/-! ### Constructors newText / newRandom (text.go lines 87-122, random.go lines 95-159) -/

/-- Embeds the capping of the configured block size to the total size
(`if int64(size) > o.totalSize { size = int(o.totalSize) }`). -/
def effectiveSize (optSize totalSize : ℤ) : ℤ :=
  if totalSize < optSize then totalSize else optSize

/-- Embeds `newText` (text.go lines 87-122): validation plus the construction
of the seeded circular buffer.  `rngBytes` is the output stream of the seeded
`math/rand` generator (repository-external; its `Read` never fails, so per the
spec the only error is the validation error).  `none` means `(nil, error)`. -/
def newText (optSize totalSize : ℤ) (rngBytes : ℕ → ℕ) : Option TextState :=
  if effectiveSize optSize totalSize ≤ 0 then none
  else some ⟨(List.range (effectiveSize optSize totalSize).toNat).map rngBytes, 0⟩

/-- Embeds `newRandom` (random.go lines 95-159), which constructs the live
`plainSrc`; the result is its seeded circular-buffer contents.  `none` means
`(nil, error)`. -/
def newRandom (optSize totalSize : ℤ) (rngBytes : ℕ → ℕ) : Option (List ℕ) :=
  if effectiveSize optSize totalSize ≤ 0 then none
  else some ((List.range (effectiveSize optSize totalSize).toNat).map rngBytes)

/-! ### Basic facts about the genData loops -/

/-- The repeat loop, run with enough fuel from a state whose distance to the
target is a multiple of the chunk length, returns the start extended by whole
copies of the chunk, reaching exactly the target length. -/
theorem repeatLoop_some (u : List ℕ) (hu : u ≠ []) :
    ∀ (fuel : ℕ) (b : List ℕ) (target : ℕ), b.length ≤ target →
      u.length ∣ (target - b.length) → target - b.length ≤ fuel →
      ∃ k, repeatLoop u target fuel b = some (b ++ (List.replicate k u).flatten) ∧
        (b ++ (List.replicate k u).flatten).length = target := by
  intro fuel
  induction fuel with
  | zero =>
    intro b target hle _ hfuel
    have hbt : b.length = target := le_antisymm hle (by omega)
    exact ⟨0, by simp [repeatLoop, hbt], by simp [hbt]⟩
  | succ fuel ih =>
    intro b target hle hdvd hfuel
    by_cases hbt : b.length = target
    · exact ⟨0, by simp [repeatLoop, hbt], by simp [hbt]⟩
    · have hlt : b.length < target := lt_of_le_of_ne hle hbt
      have hupos : 0 < u.length := List.length_pos.mpr hu
      have hub : u.length ≤ target - b.length := Nat.le_of_dvd (by omega) hdvd
      have hle' : (b ++ u).length ≤ target := by simp only [List.length_append]; omega
      have hdvd' : u.length ∣ (target - (b ++ u).length) := by
        have heq : target - (b ++ u).length = target - b.length - u.length := by
          simp only [List.length_append]; omega
        rw [heq]
        exact Nat.dvd_sub' hdvd dvd_rfl
      have hfuel' : target - (b ++ u).length ≤ fuel := by
        simp only [List.length_append]; omega
      obtain ⟨k, hk, hklen⟩ := ih (b ++ u) target hle' hdvd' hfuel'
      refine ⟨k + 1, ?_, ?_⟩
      · rw [repeatLoop, if_neg hbt, hk]
        congr 1
        simp [List.replicate_succ, List.append_assoc]
      · simpa [List.replicate_succ, List.append_assoc] using hklen

/-- Specialization of `repeatLoop_some` to the empty start used by `genData`,
with the fuel bound used by `genDataOk`. -/
theorem repeatLoop_from_nil (u : List ℕ) (hu : u ≠ []) (target : ℕ)
    (hdvd : u.length ∣ target) :
    ∃ k, repeatLoop u target (target + 1) [] = some ((List.replicate k u).flatten) ∧
      ((List.replicate k u).flatten).length = target := by
  obtain ⟨k, hk, hklen⟩ := repeatLoop_some u hu (target + 1) [] target (by simp)
    (by simpa using hdvd) (by omega)
  exact ⟨k, by simpa using hk, by simpa using hklen⟩

/-- The remainder loop run from a nonempty builder never goes out of bounds and
adds exactly `n` bytes. -/
theorem fillLoop_some :
    ∀ (n : ℕ) (b : List ℕ) (i : ℕ), i < b.length →
      ∃ r, fillLoop b i n = some r ∧ r.length = b.length + n := by
  intro n
  induction n with
  | zero => intro b i _; exact ⟨b, rfl, by simp⟩
  | succ n ih =>
    intro b i hi
    obtain ⟨x, hx⟩ : ∃ x, b.get? i = some x := ⟨b.get ⟨i, hi⟩, List.get?_eq_get hi⟩
    obtain ⟨r, hr, hrlen⟩ := ih (b ++ [x]) (i + 1) (by simpa using hi)
    refine ⟨r, ?_, ?_⟩
    · rw [fillLoop, hx]
      exact hr
    · simp only [List.length_append, List.length_cons, List.length_nil] at hrlen
      omega

/-- The remainder loop with a positive count on the empty builder indexes
`builder[0]` out of range. -/
theorem fillLoop_nil_pos (n : ℕ) : fillLoop [] 0 (n + 1) = none := by
  simp [fillLoop]

/-- `genDataOk` with a nonempty unique chunk dividing the repeat target returns
`repeatLen + remLen` bytes (the remainder loop needs a nonempty builder unless
the remainder is zero). -/
theorem genDataOk_some (u : List ℕ) (hu : u ≠ []) (repeatLen remLen : ℕ)
    (hdvd : u.length ∣ repeatLen) (hrep : 0 < repeatLen ∨ remLen = 0) :
    ∃ r, genDataOk u repeatLen remLen = some r ∧ r.length = repeatLen + remLen := by
  obtain ⟨k, hk, hklen⟩ := repeatLoop_from_nil u hu repeatLen hdvd
  rcases hrep with hpos | hzero
  · obtain ⟨r, hr, hrlen⟩ := fillLoop_some remLen ((List.replicate k u).flatten) 0
      (by omega)
    refine ⟨r, ?_, by omega⟩
    rw [genDataOk, hk]
    exact hr
  · subst hzero
    refine ⟨(List.replicate k u).flatten, ?_, by simpa using hklen⟩
    rw [genDataOk, hk]
    rfl

theorem join_replicate_singleton (k x : ℕ) :
    (List.replicate k ([x] : List ℕ)).flatten = List.replicate k x := by
  induction k with
  | zero => rfl
  | succ k ih => simp [List.replicate_succ, ih]

/-- `genDataOk` with the single-byte fallback chunk produces that byte repeated
`n` times. -/
theorem genDataOk_singleton (x n : ℕ) :
    genDataOk [x] n 0 = some (List.replicate n x) := by
  obtain ⟨k, hk, hklen⟩ := repeatLoop_from_nil [x] (by simp) n (by simp)
  rw [genDataOk, hk]
  rw [join_replicate_singleton] at hklen ⊢
  simp only [List.length_replicate] at hklen
  subst hklen
  rfl

/-! ### The four control-flow branches of genData -/

theorem genData_true_eq (uniq : ℕ → ℕ) (reqSize ratio window : ℕ) :
    genData true uniq reqSize ratio window =
      genDataOk ((List.range (genParams reqSize ratio window).1).map uniq)
        (genParams reqSize ratio window).2.2 (genParams reqSize ratio window).2.1 := rfl

theorem genParams_ratio0 (reqSize window : ℕ) :
    genParams reqSize 0 window = (reqSize, 0, reqSize) := by
  simp [genParams]

theorem genParams_fallback {reqSize ratio window : ℕ} (hr : 0 < ratio)
    (hw : reqSize ≤ window) (hdiv : reqSize / ratio = 0) :
    genParams reqSize ratio window = (1, 0, reqSize) := by
  simp [genParams, hr, hw, hdiv]

theorem genParams_main {reqSize ratio window : ℕ} (hr : 0 < ratio)
    (hw : reqSize ≤ window) (hdiv : reqSize / ratio ≠ 0) :
    genParams reqSize ratio window =
      (reqSize / ratio, reqSize % ratio, reqSize / ratio * ratio) := by
  simp [genParams, hr, hw, hdiv]

theorem genParams_capped {reqSize ratio window : ℕ} (hr : 0 < ratio)
    (hw : ¬ reqSize ≤ window) :
    genParams reqSize ratio window =
      (window / ratio, window % ratio, window / ratio * ratio) := by
  simp [genParams, hr, hw]

/-- With `compRatio = 0` (compressibility control disabled) a successful
`genData` call returns exactly `reqSize` fresh bytes. -/
theorem genData_ratio0 (uniq : ℕ → ℕ) (reqSize window : ℕ) :
    ∃ l, genData true uniq reqSize 0 window = some l ∧ l.length = reqSize := by
  rw [genData_true_eq, genParams_ratio0]
  rcases Nat.eq_zero_or_pos reqSize with h0 | hpos
  · subst h0
    exact ⟨[], by simp [genDataOk, repeatLoop, fillLoop], rfl⟩
  · have hu : ((List.range reqSize).map uniq) ≠ [] := by
      simp only [ne_eq, ← List.length_pos, List.length_map, List.length_range]
      omega
    obtain ⟨r, hr, hrlen⟩ := genDataOk_some _ hu reqSize 0 (by simp) (Or.inl hpos)
    exact ⟨r, hr, by omega⟩

/-- With `0 < compRatio` and `reqSize ≤ compWindow` a successful `genData` call
returns exactly `reqSize` bytes (covering both the fallback and the main
sub-branch). -/
theorem genData_inWindow (uniq : ℕ → ℕ) {reqSize ratio window : ℕ} (hr : 0 < ratio)
    (hw : reqSize ≤ window) :
    ∃ l, genData true uniq reqSize ratio window = some l ∧ l.length = reqSize := by
  by_cases hdiv : reqSize / ratio = 0
  · rw [genData_true_eq, genParams_fallback hr hw hdiv]
    refine ⟨List.replicate reqSize (uniq 0), ?_, by simp⟩
    have h1 : ((List.range 1).map uniq) = [uniq 0] := rfl
    calc genDataOk ((List.range ((1 : ℕ), (0 : ℕ), reqSize).1).map uniq)
          ((1 : ℕ), (0 : ℕ), reqSize).2.2 ((1 : ℕ), (0 : ℕ), reqSize).2.1
        = genDataOk [uniq 0] reqSize 0 := by rw [h1]
      _ = some (List.replicate reqSize (uniq 0)) := genDataOk_singleton _ _
  · rw [genData_true_eq, genParams_main hr hw hdiv]
    have hu : ((List.range (reqSize / ratio)).map uniq) ≠ [] := by
      simp only [ne_eq, ← List.length_pos, List.length_map, List.length_range]
      exact Nat.pos_of_ne_zero hdiv
    obtain ⟨r, hr', hrlen⟩ := genDataOk_some _ hu (reqSize / ratio * ratio)
      (reqSize % ratio)
      (by simp)
      (Or.inl (Nat.mul_pos (Nat.pos_of_ne_zero hdiv) hr))
    refine ⟨r, hr', ?_⟩
    rw [hrlen, Nat.mul_comm]
    exact Nat.div_add_mod reqSize ratio

/-- With `0 < compRatio ≤ compWindow < reqSize` (the window-capped branch) a
successful `genData` call returns exactly `compWindow` bytes — not `reqSize`. -/
theorem genData_capped (uniq : ℕ → ℕ) {reqSize ratio window : ℕ} (hr : 0 < ratio)
    (hw : window < reqSize) (hrw : ratio ≤ window) :
    ∃ l, genData true uniq reqSize ratio window = some l ∧ l.length = window := by
  rw [genData_true_eq, genParams_capped hr (by omega)]
  have hdivpos : 0 < window / ratio := Nat.div_pos hrw hr
  have hu : ((List.range (window / ratio)).map uniq) ≠ [] := by
    simp only [ne_eq, ← List.length_pos, List.length_map, List.length_range]
    omega
  obtain ⟨r, hr', hrlen⟩ := genDataOk_some _ hu (window / ratio * ratio)
    (window % ratio)
    (by simp)
    (Or.inl (Nat.mul_pos hdivpos hr))
  refine ⟨r, hr', ?_⟩
  rw [hrlen, Nat.mul_comm]
  exact Nat.div_add_mod window ratio

/-- In the window-capped branch with `compWindow < compRatio` the unique block
is empty, the repeat loop leaves the builder empty, and the remainder loop
reads `builder[0]` out of range: `genData` panics. -/
theorem genData_capped_panic (uniq : ℕ → ℕ) {reqSize ratio window : ℕ}
    (hw0 : 0 < window) (hw : window < reqSize) (hwr : window < ratio) :
    genData true uniq reqSize ratio window = none := by
  have hr : 0 < ratio := by omega
  rw [genData_true_eq, genParams_capped hr (by omega)]
  have hdiv : window / ratio = 0 := Nat.div_eq_of_lt hwr
  have hmod : window % ratio = window := Nat.mod_eq_of_lt hwr
  obtain ⟨m, rfl⟩ : ∃ m, window = m + 1 := ⟨window - 1, by omega⟩
  simp [genDataOk, repeatLoop, fillLoop, hdiv, hmod]

/-- In the window-capped branch with `compWindow = 0` every length parameter is
zero and `genData` returns the empty slice. -/
theorem genData_window0 (uniq : ℕ → ℕ) {reqSize ratio : ℕ} (hr : 0 < ratio)
    (hrs : 0 < reqSize) :
    genData true uniq reqSize ratio 0 = some [] := by
  rw [genData_true_eq, genParams_capped hr (by omega)]
  simp [genDataOk, repeatLoop, fillLoop, Nat.zero_div, Nat.zero_mod]

/-! ### The repetition loop of plainSrc.Object -/

/-- Characterization of the in-place repetition loop for a positive split:
it returns, keeps the length, leaves positions before the start index
untouched, and sets every later position `j` to the original byte at
`j % split`.  The writes never touch positions `< split`, which are the only
positions read, so the original prefix is what every read sees. -/
theorem scrambleLoop_some (split : ℕ) (hs : 0 < split) :
    ∀ (fuel : ℕ) (dst : List ℕ) (i : ℕ), dst.length ≤ i + fuel → split ≤ i →
      ∃ r, scrambleLoop split fuel dst i = some r ∧ r.length = dst.length ∧
        ∀ j, j < dst.length →
          r.get? j = if j < i then dst.get? j else dst.get? (j % split) := by
  intro fuel
  induction fuel with
  | zero =>
    intro dst i hfuel hsi
    refine ⟨dst, by simp [scrambleLoop]; omega, rfl, ?_⟩
    intro j hj
    rw [if_pos (by omega)]
  | succ fuel ih =>
    intro dst i hfuel hsi
    by_cases hi : i < dst.length
    · have hmod : i % split < split := Nat.mod_lt _ hs
      have hmlt : i % split < dst.length := by omega
      obtain ⟨v, hv⟩ : ∃ v, dst.get? (i % split) = some v :=
        ⟨dst.get ⟨i % split, hmlt⟩, List.get?_eq_get hmlt⟩
      have hset : (dst.set i v).length = dst.length := by simp
      obtain ⟨r, hr, hrlen, hrget⟩ := ih (dst.set i v) (i + 1)
        (by omega) (by omega)
      refine ⟨r, ?_, by omega, ?_⟩
      · rw [scrambleLoop, if_pos hi, if_neg (by omega), hv]
        exact hr
      · intro j hj
        have hj' := hrget j (by omega)
        by_cases hji : j < i
        · rw [if_pos hji]
          rw [if_pos (by omega)] at hj'
          rw [hj', List.get?_set_ne v dst (by omega)]
        · by_cases hje : j = i
          · subst hje
            rw [if_neg (by omega)]
            rw [if_pos (by omega)] at hj'
            rw [hj', List.get?_set_eq_of_lt v hi, hv]
          · rw [if_neg (by omega)]
            rw [if_neg (by omega)] at hj'
            have hjm : j % split < split := Nat.mod_lt _ hs
            rw [hj', List.get?_set_ne v dst (by omega)]
    · refine ⟨dst, ?_, rfl, ?_⟩
      · rw [scrambleLoop, if_neg hi]
      · intro j hj
        rw [if_pos (by omega)]

/-- With a zero split and a nonempty buffer the first iteration evaluates
`i % 0`: the loop panics. -/
theorem scrambleLoop_split0 (fuel : ℕ) (dst : List ℕ) (hd : 0 < dst.length) :
    scrambleLoop 0 (fuel + 1) dst 0 = none := by
  rw [scrambleLoop, if_pos hd, if_pos rfl]

/-! ### The accumulation loop of textSrc.Object -/

/-- With all secure reads succeeding and a window at least as large as the
ratio (or the whole request), every iteration of the accumulation loop makes
progress and the loop stops at exactly the target size. -/
theorem buildLoop_some (uniqs : ℕ → ℕ → ℕ) {size ratio window : ℕ}
    (h : size ≤ window ∨ ratio ≤ window) :
    ∀ (fuel k : ℕ) (b : List ℕ), b.length ≤ size → size - b.length ≤ fuel →
      ∃ r, buildLoop (fun _ => true) uniqs size ratio window fuel k b = some r ∧
        r.length = size := by
  intro fuel
  induction fuel with
  | zero =>
    intro k b hle hfuel
    have hbs : b.length = size := by omega
    exact ⟨b, by simp [buildLoop, hbs], hbs⟩
  | succ fuel ih =>
    intro k b hle hfuel
    by_cases hb : b.length < size
    · have hchunk : ∃ c, genData true (uniqs k) (size - b.length) ratio window = some c ∧
          (c.length = size - b.length ∨
            (c.length = window ∧ window < size - b.length ∧ 0 < window)) := by
        rcases Nat.eq_zero_or_pos ratio with hr0 | hrpos
        · subst hr0
          obtain ⟨c, hc, hclen⟩ := genData_ratio0 (uniqs k) (size - b.length) window
          exact ⟨c, hc, Or.inl hclen⟩
        · by_cases hwin : size - b.length ≤ window
          · obtain ⟨c, hc, hclen⟩ := genData_inWindow (uniqs k) hrpos hwin
            exact ⟨c, hc, Or.inl hclen⟩
          · have hratio : ratio ≤ window := by
              rcases h with hsw | hrw
              · omega
              · exact hrw
            obtain ⟨c, hc, hclen⟩ :=
              @genData_capped (uniqs k) (size - b.length) ratio window hrpos
                (by omega) hratio
            exact ⟨c, hc, Or.inr ⟨hclen, by omega, by omega⟩⟩
      obtain ⟨c, hc, hclen⟩ := hchunk
      have hcpos : 0 < c.length := by
        rcases hclen with h1 | ⟨h1, h2, h3⟩ <;> omega
      have hble : (b ++ c).length ≤ size := by
        simp only [List.length_append]
        rcases hclen with h1 | ⟨h1, h2, h3⟩ <;> omega
      obtain ⟨r, hr, hrlen⟩ := ih (k + 1) (b ++ c) hble
        (by simp only [List.length_append]; omega)
      refine ⟨r, ?_, hrlen⟩
      rw [buildLoop, if_pos hb, hc]
      exact hr
    · exact ⟨b, by simp [buildLoop, hb], by omega⟩

/-- With every secure read failing, `genData` returns the empty slice each
iteration, the builder never grows, and no fuel bound completes the loop:
the Go loop runs forever. -/
theorem buildLoop_allFail (size ratio window : ℕ) (hs : 0 < size) :
    ∀ (fuel k : ℕ),
      buildLoop (fun _ => false) (fun _ _ => 0) size ratio window fuel k [] = none := by
  intro fuel
  induction fuel with
  | zero => intro k; simp [buildLoop, hs]
  | succ fuel ih =>
    intro k
    rw [buildLoop, if_pos (by simpa using hs)]
    show (buildLoop _ _ _ _ _ fuel (k + 1) ([] ++ []) : Option (List ℕ)) = none
    simpa using ih (k + 1)

/-- `textObject` as a map over the result of the accumulation loop. -/
theorem textObject_eq (oks : ℕ → Bool) (uniqs : ℕ → ℕ → ℕ)
    (ratio window drawnSize : ℕ) (st : TextState) :
    textObject oks uniqs ratio window drawnSize st =
      Option.map
        (fun builder => ((⟨builder, (st.counter + 1) % 2 ^ 64⟩ : TextState),
          (st.counter + 1) % 2 ^ 64))
        (buildLoop oks uniqs drawnSize ratio window (drawnSize + 1) 0 []) := by
  cases hb : buildLoop oks uniqs drawnSize ratio window (drawnSize + 1) 0 [] with
  | none => simp [textObject, hb]
  | some builder => simp [textObject, hb]

/-! ## The claims -/

/-- Claim C1 (code bug): size fidelity fails for the live Random Source.
`plainSrc.Object` builds exactly `Object.Size` bytes into `c.buf.data` but
then hands back `c.buf.Reset(0)` (random.go line 201), so under the spec's
circular-reader contract the returned stream yields 0 bytes while
`Object.Size = 4` — the caller observes fewer bytes than `Object.Size`. -/
theorem plainSrc_stream_empty_despite_size :
    (plainSrcObject true (fun i => i) 4).size = 4 ∧
    (plainSrcObject true (fun i => i) 4).streamed = some [] ∧
    ([] : List ℕ).length ≠ 4 := by decide

/-- Claim C2 (counterexample): `genData` does not return `reqSize` bytes when
`reqSize > compWindow`: at `reqSize = 10, compRatio = 2, compWindow = 4` the
window-capped branch returns 4 bytes, not 10. -/
theorem genData_capped_counterexample :
    genData true (fun i => i) 10 2 4 = some [0, 1, 0, 1] ∧
    ([0, 1, 0, 1] : List ℕ).length ≠ 10 := by decide

/-- Claim C2 (amended): on every successful return, `genData` yields exactly
`reqSize` bytes when `compRatio = 0` or `reqSize ≤ compWindow`, and exactly
`compWindow` bytes in the window-capped branch (it is the caller's
accumulation loop, not `genData`, that reaches `reqSize` in total). -/
theorem genData_returned_length (uniq : ℕ → ℕ) {reqSize ratio window : ℕ}
    (h1 : 1 ≤ reqSize) {l : List ℕ}
    (hl : genData true uniq reqSize ratio window = some l) :
    l.length = if ratio = 0 ∨ reqSize ≤ window then reqSize else window := by
  rcases Nat.eq_zero_or_pos ratio with hr0 | hrpos
  · subst hr0
    obtain ⟨l', hl', hlen⟩ := genData_ratio0 uniq reqSize window
    rw [hl'] at hl
    obtain rfl : l' = l := Option.some.inj hl
    rw [if_pos (Or.inl rfl)]
    exact hlen
  · by_cases hw : reqSize ≤ window
    · obtain ⟨l', hl', hlen⟩ := genData_inWindow uniq hrpos hw
      rw [hl'] at hl
      obtain rfl : l' = l := Option.some.inj hl
      rw [if_pos (Or.inr hw)]
      exact hlen
    · rw [if_neg (by omega)]
      by_cases hrw : ratio ≤ window
      · obtain ⟨l', hl', hlen⟩ :=
          @genData_capped uniq reqSize ratio window hrpos (by omega) hrw
        rw [hl'] at hl
        obtain rfl : l' = l := Option.some.inj hl
        exact hlen
      · rcases Nat.eq_zero_or_pos window with hw0 | hwpos
        · subst hw0
          rw [@genData_window0 uniq reqSize ratio hrpos (by omega)] at hl
          obtain rfl : ([] : List ℕ) = l := Option.some.inj hl
          rfl
        · rw [@genData_capped_panic uniq reqSize ratio window hwpos (by omega)
            (by omega)] at hl
          cases hl

/-- Witness for `genData_returned_length` at `reqSize = 10, ratio = 2,
window = 4`. -/
theorem genData_returned_length_witness :
    (1 : ℕ) ≤ 10 ∧ genData true (fun i => i) 10 2 4 = some [0, 1, 0, 1] ∧
      ([0, 1, 0, 1] : List ℕ).length =
        if (2 : ℕ) = 0 ∨ (10 : ℕ) ≤ 4 then 10 else 4 :=
  ⟨by decide, by decide,
    @genData_returned_length (fun i => i) 10 2 4 (by decide) [0, 1, 0, 1] (by decide)⟩

/-- Claim C3 (counterexample): the live Random Source does not return the raw
secure-random bytes.  With drawn size 8 and secure bytes `0..7`, the payload is
`[0, 1, 0, 1, 0, 1, 0, 1]` — the first quarter repeated — not `[0, ..., 7]`. -/
theorem plainPayload_not_raw_random :
    (plainSrcObject true (fun i => i) 8).payload = some [0, 1, 0, 1, 0, 1, 0, 1] ∧
    [0, 1, 0, 1, 0, 1, 0, 1] ≠ (List.range 8).map (fun i => i) := by decide

/-- Claim C3 (amended): for drawn sizes ≥ 4 only the first `size / 4` bytes
come from the secure random source; byte `j` of the payload equals secure byte
`j % (size / 4)`, so the payload carries imposed fourfold redundancy. -/
theorem plainPayload_quarter_redundancy (uniq : ℕ → ℕ) {size : ℕ} (h4 : 4 ≤ size) :
    ∃ l, (plainSrcObject true uniq size).payload = some l ∧ l.length = size ∧
      ∀ j, j < size → l.get? j = some (uniq (j % (size / 4))) := by
  have hs : 0 < size / 4 := Nat.div_pos h4 (by omega)
  have hsle : size / 4 ≤ size := Nat.div_le_self _ _
  have hlen : ((List.range size).map uniq).length = size := by simp
  obtain ⟨r, hr, hrlen, hrget⟩ := scrambleLoop_some (size / 4) hs size
    ((List.range size).map uniq) (size / 4) (by omega) le_rfl
  have hpd : plainObjectData true uniq size =
      scrambleLoop (size / 4) size ((List.range size).map uniq) (size / 4) := rfl
  refine ⟨r, ?_, by omega, ?_⟩
  · show plainObjectData true uniq size = some r
    rw [hpd]
    exact hr
  · intro j hj
    have hmod : j % (size / 4) < size / 4 := Nat.mod_lt _ hs
    have hget : ∀ m, m < size → ((List.range size).map uniq).get? m = some (uniq m) := by
      intro m hm
      rw [List.get?_map, List.get?_range hm]
      rfl
    have hthis := hrget j (by omega)
    by_cases hji : j < size / 4
    · rw [if_pos hji] at hthis
      rw [hthis, hget j (by omega), Nat.mod_eq_of_lt hji]
    · rw [if_neg hji] at hthis
      rw [hthis, hget (j % (size / 4)) (by omega)]

/-- Witness for `plainPayload_quarter_redundancy` at size 4. -/
theorem plainPayload_quarter_redundancy_witness :
    (4 : ℕ) ≤ 4 ∧
      ∃ l, (plainSrcObject true (fun i => i) 4).payload = some l ∧ l.length = 4 ∧
        ∀ j, j < 4 → l.get? j = some ((fun i => i) (j % (4 / 4))) :=
  ⟨by decide, @plainPayload_quarter_redundancy (fun i => i) 4 (by decide)⟩

/-- Claim C4 (counterexample): the seed buffer is not preserved across
`Object()` calls.  A `textSrc` whose circular buffer holds the construction
seed `[1, 2, 3, 4]` holds `[9, 9]` — that call's freshly built payload —
after one `Object()` call of drawn size 2. -/
theorem textObject_discards_seed :
    (textObject (fun _ => true) (fun _ _ => 9) 0 1 2 ⟨[1, 2, 3, 4], 0⟩).map
        (fun p => p.1.bufData) = some [9, 9] ∧
    ([9, 9] : List ℕ) ≠ [1, 2, 3, 4] := by decide

/-- Claim C4 (amended): every `textSrc.Object` call overwrites `t.buf.data`
with the bytes built during that call; the resulting buffer contents are
independent of whatever the buffer (seed or earlier payload) held before. -/
theorem textObject_bufData_independent (oks : ℕ → Bool) (uniqs : ℕ → ℕ → ℕ)
    (ratio window drawnSize : ℕ) (st1 st2 : TextState) (p1 p2 : TextState × ℕ)
    (h1 : textObject oks uniqs ratio window drawnSize st1 = some p1)
    (h2 : textObject oks uniqs ratio window drawnSize st2 = some p2) :
    p1.1.bufData = p2.1.bufData := by
  rw [textObject_eq] at h1 h2
  cases hb : buildLoop oks uniqs drawnSize ratio window (drawnSize + 1) 0 [] with
  | none =>
    rw [hb] at h1
    simp at h1
  | some builder =>
    rw [hb] at h1 h2
    simp only [Option.map_some', Option.some.injEq] at h1 h2
    rw [← h1, ← h2]

/-- Witness for `textObject_bufData_independent`: the same call from two
different prior buffer states yields the same new buffer contents. -/
theorem textObject_bufData_independent_witness :
    textObject (fun _ => true) (fun _ _ => 9) 0 1 2 ⟨[1, 2, 3, 4], 0⟩ =
        some (⟨[9, 9], 1⟩, 1) ∧
    textObject (fun _ => true) (fun _ _ => 9) 0 1 2 ⟨[7], 5⟩ = some (⟨[9, 9], 6⟩, 6) ∧
    ((⟨[9, 9], 1⟩, 1) : TextState × ℕ).1.bufData =
      ((⟨[9, 9], 6⟩, 6) : TextState × ℕ).1.bufData :=
  ⟨by decide, by decide,
    textObject_bufData_independent (fun _ => true) (fun _ _ => 9) 0 1 2
      ⟨[1, 2, 3, 4], 0⟩ ⟨[7], 5⟩ (⟨[9, 9], 1⟩, 1) (⟨[9, 9], 6⟩, 6)
      (by decide) (by decide)⟩

/-- Claim C5 (counterexample): the live Random Source's names carry no counter
component: the name is just the random suffix plus `.txt` (random.go line 204),
so two sequential calls whose rng happens to produce the same 16-character
suffix emit identical names — they are neither counter-increasing nor pairwise
distinct. -/
theorem plainName_collision :
    plainNameSeq (fun _ => "SqxyzXWpR1aBc9Qz") 0 =
      plainNameSeq (fun _ => "SqxyzXWpR1aBc9Qz") 1 := rfl

/-- Claim C5 (amended): the Text Source's names do embed the atomically
incremented per-instance counter, and over sequential calls that stay below
the `uint64` wrap the counter components are strictly increasing (hence
pairwise distinct); the live Random Source's names have no counter at all. -/
theorem textCounter_strict_mono {i j : ℕ} (hij : i < j) (hj : j + 1 < 2 ^ 64) :
    textCounterAt i < textCounterAt j := by
  rw [textCounterAt, textCounterAt, Nat.mod_eq_of_lt (by omega), Nat.mod_eq_of_lt hj]
  omega

/-- Witness for `textCounter_strict_mono` at calls 0 and 1. -/
theorem textCounter_strict_mono_witness :
    ((0 : ℕ) < 1 ∧ (1 : ℕ) + 1 < 2 ^ 64) ∧ textCounterAt 0 < textCounterAt 1 :=
  ⟨⟨by decide, by decide⟩, @textCounter_strict_mono 0 1 (by decide) (by decide)⟩

/-- Claim C6 (counterexample): the single-byte fallback is not reached for
every `1 ≤ reqSize < compRatio`: with `compWindow = 1 < reqSize = 2 < compRatio
= 5` the window-capped branch runs instead, has no fallback, and panics. -/
theorem genData_small_beyond_window_panics :
    (1 : ℕ) ≤ 2 ∧ (2 : ℕ) < 5 ∧ genData true (fun _ => 5) 2 5 1 = none := by decide

/-- Claim C6 (amended): for `1 ≤ reqSize < compRatio` with `reqSize ≤
compWindow` and a successful secure read, `genData` falls back to a unique
block of length 1 with remainder 0 and returns exactly `reqSize` copies of
that single unique byte. -/
theorem genData_small (uniq : ℕ → ℕ) {reqSize ratio window : ℕ} (h1 : 1 ≤ reqSize)
    (h2 : reqSize < ratio) (h3 : reqSize ≤ window) :
    genData true uniq reqSize ratio window = some (List.replicate reqSize (uniq 0)) := by
  have hr : 0 < ratio := by omega
  have hdiv : reqSize / ratio = 0 := Nat.div_eq_of_lt h2
  rw [genData_true_eq, genParams_fallback hr h3 hdiv]
  have h1' : ((List.range 1).map uniq) = [uniq 0] := rfl
  calc genDataOk ((List.range ((1 : ℕ), (0 : ℕ), reqSize).1).map uniq)
        ((1 : ℕ), (0 : ℕ), reqSize).2.2 ((1 : ℕ), (0 : ℕ), reqSize).2.1
      = genDataOk [uniq 0] reqSize 0 := by rw [h1']
    _ = some (List.replicate reqSize (uniq 0)) := genDataOk_singleton _ _

/-- Witness for `genData_small` at `reqSize = 2, ratio = 5, window = 100`. -/
theorem genData_small_witness :
    ((1 : ℕ) ≤ 2 ∧ (2 : ℕ) < 5 ∧ (2 : ℕ) ≤ 100) ∧
      genData true (fun _ => (7 : ℕ)) 2 5 100 = some (List.replicate 2 7) :=
  ⟨by decide, @genData_small (fun _ => 7) 2 5 100 (by decide) (by decide) (by decide)⟩

/-- Claim C7 (confirmed): `newText` and `newRandom` return `(nil, error)`
exactly when the configured block size, capped to the total size, is ≤ 0;
otherwise they return a source seeded from the instance rng and no error, and
in the error case no instance is created. -/
theorem newSource_error_iff (optSize totalSize : ℤ) (rngBytes : ℕ → ℕ) :
    (newText optSize totalSize rngBytes = none ↔
      effectiveSize optSize totalSize ≤ 0) ∧
    (newRandom optSize totalSize rngBytes = none ↔
      effectiveSize optSize totalSize ≤ 0) := by
  by_cases hc : effectiveSize optSize totalSize ≤ 0 <;>
    simp [newText, newRandom, hc]

/-- Claim C8 (code bug): when every secure read fails, `genData` returns the
empty slice, each iteration of the accumulation loop of `textSrc.Object` makes
no progress, and the loop never terminates for any fuel bound — `produceObject`
does not return. -/
theorem textBuild_diverges_on_read_failure :
    genData false (fun _ => 0) 1 0 1 = some [] ∧
    ¬ BuildTerminates (fun _ => false) (fun _ _ => 0) 1 0 1 := by
  refine ⟨rfl, ?_⟩
  rintro ⟨fuel, hfuel⟩
  exact hfuel (buildLoop_allFail 1 0 1 (by decide) fuel 0)

/-- Claim C9 (confirmed): the payload construction of the live Random Source's
`Object()` evaluates `i % splitLength` with `splitLength = size / 4 = 0`
whenever `1 ≤ size ≤ 3`, a modulo-by-zero panic, and returns normally exactly
when the drawn size is 0 or at least 4 — for either outcome of the secure
read. -/
theorem plainObject_total_iff (ok : Bool) (uniq : ℕ → ℕ) (n : ℕ) :
    (plainObjectData ok uniq n).isSome ↔ (n = 0 ∨ 4 ≤ n) := by
  have hlen : (if ok then (List.range n).map uniq else List.replicate n 0).length = n := by
    cases ok <;> simp
  constructor
  · intro hsome
    by_contra hcon
    push_neg at hcon
    obtain ⟨hn0, hn4⟩ := hcon
    obtain ⟨m, hm⟩ : ∃ m, n = m + 1 := ⟨n - 1, by omega⟩
    subst hm
    have hs : (m + 1) / 4 = 0 := Nat.div_eq_of_lt (by omega)
    rw [plainObjectData, hs] at hsome
    rw [scrambleLoop_split0 m _ (by rw [hlen]; omega)] at hsome
    exact Bool.noConfusion hsome
  · intro hn
    rcases hn with hn0 | hn4
    · subst hn0
      cases ok <;> rfl
    · have hs : 0 < n / 4 := Nat.div_pos hn4 (by omega)
      obtain ⟨r, hr, -, -⟩ := scrambleLoop_some (n / 4) hs n
        (if ok then (List.range n).map uniq else List.replicate n 0) (n / 4)
        (by rw [hlen]; omega) le_rfl
      rw [plainObjectData, hr]
      rfl

/-- Claim C10 (confirmed): with a positive window, `genData` (under a
successful secure read) returns normally iff `compRatio = 0`, `reqSize ≤
compWindow`, or `compRatio ≤ compWindow`; in the remaining region
(`0 < compWindow < compRatio` and `reqSize > compWindow`) the window-capped
branch produces an empty builder and the remainder loop indexes it out of
range. -/
theorem genData_total_iff (uniq : ℕ → ℕ) (reqSize ratio window : ℕ)
    (hw : 0 < window) :
    (genData true uniq reqSize ratio window).isSome ↔
      (ratio = 0 ∨ reqSize ≤ window ∨ ratio ≤ window) := by
  rcases Nat.eq_zero_or_pos ratio with hr0 | hrpos
  · subst hr0
    obtain ⟨l, hl, -⟩ := genData_ratio0 uniq reqSize window
    rw [hl]
    simp
  · by_cases hwin : reqSize ≤ window
    · obtain ⟨l, hl, -⟩ := genData_inWindow uniq hrpos hwin
      rw [hl]
      simp [hwin]
    · by_cases hrw : ratio ≤ window
      · obtain ⟨l, hl, -⟩ :=
          @genData_capped uniq reqSize ratio window hrpos (by omega) hrw
        rw [hl]
        simp [hrw]
      · rw [@genData_capped_panic uniq reqSize ratio window hw (by omega) (by omega)]
        simp
        omega

/-- Witness for `genData_total_iff` at `reqSize = 3, ratio = 2, window = 1`. -/
theorem genData_total_iff_witness :
    (0 : ℕ) < 1 ∧ ((genData true (fun _ => (0 : ℕ)) 3 2 1).isSome ↔
      ((2 : ℕ) = 0 ∨ (3 : ℕ) ≤ 1 ∨ (2 : ℕ) ≤ 1)) :=
  ⟨by decide, genData_total_iff (fun _ => 0) 3 2 1 (by decide)⟩

end Warp
